import Mathlib

/-!
Shallow embedding of the runsvdir process supervisor (Rust) for verification.

Source files modelled:
  - shash.rs  : content fingerprint (Shash) computed via SHA-256 over
                path bytes, frame separators, length fields and file content.
  - step.rs   : free function step(dir, running) performing one pass.
  - stepper.rs: Stepper struct owning dir + running, method invoke().
  - main.rs   : step(dir, running) variant returning unit, plus driver loop.

Modelling conventions:
  - Byte strings (paths, file contents) are List Nat.
  - SHA-256 is a fixed pure function of the byte sequence absorbed into the
    hasher; theorems are parametric in a digest function
    (digestF : List Nat -> List Nat), so a statement about the digest is a
    statement about the absorbed byte sequence fed to the hash.
  - File I/O is an explicit environment: the open result and the sequence of
    read(2) results form a trace (List ReadEvent); directory listing, spawn
    and wait results are environment functions in StepEnv.
  - Rust HashMap<Shash, Child> is an association list keyed by the Rust
    PartialEq on Shash (digest bytes only); HashSet<Shash> similarly.
    List order linearises the map iteration order.
-/

/-- Byte strings: paths and file contents are sequences of bytes. -/
abbrev Bytes := List Nat

/-- Rust std::io::ErrorKind, with the kinds the code inspects distinguished. -/
inductive ErrorKind where
  | interrupted
  | notFound
  | permissionDenied
  | other (code : Nat)
  deriving DecidableEq, Repr

/-- Model of std::io::Error: the code only ever inspects the kind. -/
abbrev IOError := ErrorKind

/-- usize::to_ne_bytes(): the 8 bytes of a usize, least significant first
(x86-64 native endianness); a fixed-width (8-byte) encoding of n. -/
def neBytes (n : Nat) : Bytes :=
  [n % 256, n / 256 % 256, n / 256 ^ 2 % 256, n / 256 ^ 3 % 256,
   n / 256 ^ 4 % 256, n / 256 ^ 5 % 256, n / 256 ^ 6 % 256, n / 256 ^ 7 % 256]

/-- struct Shash from shash.rs: a digest plus the originating path.
The hash field holds the value of the digest function on the absorbed
byte sequence. -/
structure Shash where
  hash : Bytes
  path : Bytes
  deriving DecidableEq, Repr

/-- impl PartialEq for Shash: equality compares the digest bytes only;
the path field is ignored. -/
def Shash.beq (a b : Shash) : Bool :=
  a.hash == b.hash

/-- impl Hash for Shash: the bytes fed to the hasher state are the digest
bytes only; the path field is not fed. -/
def Shash.hashFeed (a : Shash) : Bytes :=
  a.hash

/-- enum ShashError from shash.rs: both variants carry the offending path
and the underlying io::Error cause. -/
inductive ShashError where
  | openFile (path : Bytes) (cause : IOError)
  | readFile (path : Bytes) (cause : IOError)
  deriving DecidableEq, Repr

/-- One result of file.read(&mut buffer) in the Shash::try_from loop:
Ok(len) delivering a chunk of len bytes (len = 0 signals end of file),
or Err(e). -/
inductive ReadEvent where
  | ok (chunk : Bytes)
  | err (e : IOError)
  deriving DecidableEq, Repr

/-- The read loop of Shash::try_from (shash.rs lines 56-73), acting on a
trace of read results. acc is the byte sequence absorbed into the hasher so
far, totalLen the running content byte count. Ok(0) finalises: absorb a zero
byte and the total length, return the digest. Ok(len) absorbs the chunk.
Err of kind Interrupted retries (next event). Any other Err aborts with
ShashError::ReadFile(path, err). none means the trace ended before the loop
did (the execution is not captured by this finite trace). -/
def readLoop (digestF : Bytes → Bytes) (path : Bytes) (acc : Bytes)
    (totalLen : Nat) : List ReadEvent → Option (Except ShashError Shash)
  | [] => none
  | .ok [] :: _ =>
      some (.ok ⟨digestF (acc ++ [0] ++ neBytes totalLen), path⟩)
  | .ok chunk :: rest =>
      readLoop digestF path (acc ++ chunk) (totalLen + chunk.length) rest
  | .err e :: rest =>
      if e = .interrupted then readLoop digestF path acc totalLen rest
      else some (.error (.readFile path e))

/-- Shash::try_from(&Path) (shash.rs lines 46-74): absorb the path bytes, a
zero byte, the path byte-length as a fixed-width integer, a zero byte; then
open the file (failure yields ShashError::OpenFile(path, err)) and run the
read loop over the trace of read results. path.len() is nix::NixPath::len,
the byte length of the path. -/
def shashTryFrom (digestF : Bytes → Bytes) (path : Bytes)
    (openRes : Except IOError Unit) (reads : List ReadEvent) :
    Option (Except ShashError Shash) :=
  match openRes with
  | .error e => some (.error (.openFile path e))
  | .ok _ => readLoop digestF path (path ++ [0] ++ neBytes path.length ++ [0]) 0 reads

/-- A read trace delivers exactly the byte string content: a sequence of
nonempty successful chunks, possibly interleaved with interrupted errors,
terminated by a zero-length read; the chunks concatenate to content. -/
inductive ReadsTo : List ReadEvent → Bytes → Prop where
  | eof (rest : List ReadEvent) : ReadsTo (.ok [] :: rest) []
  | chunk (c : Bytes) (rest : List ReadEvent) (content : Bytes)
      (hne : c ≠ []) (h : ReadsTo rest content) :
      ReadsTo (.ok c :: rest) (c ++ content)
  | intr (rest : List ReadEvent) (content : Bytes)
      (h : ReadsTo rest content) :
      ReadsTo (.err .interrupted :: rest) content

/-- The reference byte sequence of the specification: path bytes, zero byte,
path byte-length fixed-width, zero byte, full content, zero byte, content
byte count fixed-width. -/
def refFeed (path content : Bytes) : Bytes :=
  path ++ [0] ++ neBytes path.length ++ [0] ++ content ++ [0] ++ neBytes content.length

theorem readLoop_readsTo (digestF : Bytes → Bytes) (path : Bytes)
    (evs : List ReadEvent) (content : Bytes) (h : ReadsTo evs content) :
    ∀ acc totalLen, readLoop digestF path acc totalLen evs =
      some (.ok ⟨digestF (acc ++ content ++ [0] ++ neBytes (totalLen + content.length)), path⟩) := by
  induction h with
  | eof rest =>
      intro acc totalLen
      simp [readLoop]
  | chunk c rest content hne hr ih =>
      intro acc totalLen
      match c, hne with
      | x :: xs, _ =>
        rw [readLoop, ih] <;>
          simp [List.append_assoc, Nat.add_assoc, Nat.add_comm, Nat.add_left_comm]
  | intr rest content hr ih =>
      intro acc totalLen
      rw [readLoop]
      simp only [if_pos rfl]
      exact ih acc totalLen

/-- Process identifier of a spawned child (Child::id). -/
abbrev Pid := Nat

/-- The tracked map HashMap<Shash, Child>: association list keyed by the
Rust PartialEq on Shash. A Child handle is represented by its pid; its
try_wait outcome is supplied by the environment. -/
abbrev RMap := List (Shash × Pid)

/-- Result of Child::try_wait(): still running (Ok(None)), exited with a
status (Ok(Some(status))), or the query itself failed (Err). -/
inductive WaitRes where
  | alive
  | exited (status : Int)
  | err (e : IOError)
  deriving DecidableEq, Repr

/-- One element yielded by read_dir: Ok(entry) with the entry path
(entry.path()), or Err. -/
inductive DirEntryRes where
  | err (e : IOError)
  | ok (entryPath : Bytes)
  deriving DecidableEq, Repr

/-- The I/O environment one pass runs against: the read_dir result for the
service directory, the outcome of Shash::try_from for a given run-file path,
the outcome of Command::new(p)...spawn() for a given executable path, and
the outcome of try_wait for a given child. -/
structure StepEnv where
  listing : Except IOError (List DirEntryRes)
  fingerprint : Bytes → Except ShashError Shash
  spawnRes : Bytes → Except IOError Pid
  tryWait : Pid → WaitRes

/-- p.push("run"): the run-file path of a service subdirectory
(separator byte then bytes of run). -/
def runPath (entryPath : Bytes) : Bytes :=
  entryPath ++ [47, 114, 117, 110]

/-- HashMap::entry lookup: does the map contain a key equal (Rust PartialEq:
digest bytes only) to h. -/
def containsKey (m : RMap) (h : Shash) : Bool :=
  m.any fun e => Shash.beq e.1 h

/-- HashSet::contains under the Rust PartialEq on Shash. -/
def curContains (cur : List Shash) (h : Shash) : Bool :=
  cur.any fun x => Shash.beq x h

/-- Observable actions of one pass, in program order: a successful spawn
(insertion into the tracked map), a SIGTERM sent to a stale entry, and a
try_wait exit check with its outcome. -/
inductive Event where
  | spawned (h : Shash) (pid : Pid)
  | sigterm (h : Shash) (pid : Pid)
  | waited (h : Shash) (pid : Pid) (r : WaitRes)
  deriving DecidableEq, Repr

/-- enum StepError from step.rs. -/
inductive StepError where
  | readDir (e : IOError)
  | readDirEntry (e : IOError)
  | shash (e : ShashError)
  | spawnFail (h : Shash) (e : IOError)
  deriving DecidableEq, Repr

/-- enum StepError from stepper.rs: the hashing variant additionally names
the offending path. -/
inductive StepperError where
  | readDir (e : IOError)
  | readDirEntry (e : IOError)
  | shash (p : Bytes) (e : ShashError)
  | spawnFail (h : Shash) (e : IOError)
  deriving DecidableEq, Repr

/-- The closure f in step.rs lines 17-38, acting on one directory entry:
propagate the entry error; form the run path; fingerprint it (propagating
failure); if the hash is vacant in the tracked map, spawn (propagating
failure) and insert; finally insert the hash into the desired set cur.
Returns the updated map, updated cur and emitted events; on error the
caller leaves both untouched (no mutation precedes the failure point). -/
def entryBody (env : StepEnv) (running : RMap) (cur : List Shash) :
    DirEntryRes → Except StepError (RMap × List Shash × List Event)
  | .err e => .error (.readDirEntry e)
  | .ok entryPath =>
      let p := runPath entryPath
      match env.fingerprint p with
      | .error e => .error (.shash e)
      | .ok hash =>
          if containsKey running hash then
            .ok (running, cur ++ [hash], [])
          else
            match env.spawnRes p with
            | .error e => .error (.spawnFail hash e)
            | .ok pid =>
                .ok (running ++ [(hash, pid)], cur ++ [hash], [.spawned hash pid])

/-- The for-loop of step.rs lines 16-43: process entries left to right; a
failed entry is logged and skipped, leaving running and cur unchanged. -/
def entryPhase (env : StepEnv) (running : RMap) (cur : List Shash) :
    List DirEntryRes → RMap × List Shash × List Event
  | [] => (running, cur, [])
  | d :: rest =>
      match entryBody env running cur d with
      | .error _ => entryPhase env running cur rest
      | .ok (r, c, evs) =>
          let t := entryPhase env r c rest
          (t.1, t.2.1, evs ++ t.2.2)

/-- running.retain(..) of step.rs lines 45-66, entry by entry in iteration
order: if the hash is not in cur, send SIGTERM (failure of kill is logged
and ignored); then try_wait: Ok(None) keeps the entry, Ok(Some(status))
removes it, Err keeps it. -/
def retainPhase (env : StepEnv) (cur : List Shash) : RMap → RMap × List Event
  | [] => ([], [])
  | (h, pid) :: rest =>
      let sig : List Event := if curContains cur h then [] else [.sigterm h pid]
      let w := env.tryWait pid
      let t := retainPhase env cur rest
      let keep : Bool :=
        match w with
        | .alive => true
        | .exited _ => false
        | .err _ => true
      (if keep then (h, pid) :: t.1 else t.1, sig ++ .waited h pid w :: t.2)

deriving instance DecidableEq for Except

/-- Result of one pass: the tracked map after the pass, the value returned
to the caller, and the trace of observable actions in program order. -/
structure StepResult where
  running : RMap
  passRes : Except StepError Unit
  trace : List Event
  deriving DecidableEq, Repr

/-- pub fn step(dir, running) from step.rs lines 13-68: a read_dir failure
returns StepError::ReadDir at once (tracked map untouched, nothing done);
otherwise run the entry loop and then the retain phase, returning Ok(()). -/
def step (env : StepEnv) (running : RMap) : StepResult :=
  match env.listing with
  | .error e => ⟨running, .error (.readDir e), []⟩
  | .ok ds =>
      let t := entryPhase env running [] ds
      let r := retainPhase env t.2.1 t.1
      ⟨r.1, .ok (), t.2.2 ++ r.2⟩

/-- pub struct Stepper from stepper.rs: the directory and the tracked map,
owned by the struct. -/
structure Stepper where
  dir : Bytes
  running : RMap
  deriving DecidableEq, Repr

/-- Stepper::new(dir): empty tracked map. -/
def Stepper.new (dir : Bytes) : Stepper :=
  ⟨dir, []⟩

/-- The closure f in stepper.rs lines 32-56: identical to the one in
step.rs except that the fingerprint failure is wrapped together with the
offending run path. -/
def stepperEntryBody (env : StepEnv) (running : RMap) (cur : List Shash) :
    DirEntryRes → Except StepperError (RMap × List Shash × List Event)
  | .err e => .error (.readDirEntry e)
  | .ok entryPath =>
      let p := runPath entryPath
      match env.fingerprint p with
      | .error e => .error (.shash p e)
      | .ok hash =>
          if containsKey running hash then
            .ok (running, cur ++ [hash], [])
          else
            match env.spawnRes p with
            | .error e => .error (.spawnFail hash e)
            | .ok pid =>
                .ok (running ++ [(hash, pid)], cur ++ [hash], [.spawned hash pid])

/-- The for-loop of stepper.rs lines 29-61: failed entries are logged and
skipped. -/
def stepperEntryPhase (env : StepEnv) (running : RMap) (cur : List Shash) :
    List DirEntryRes → RMap × List Shash × List Event
  | [] => (running, cur, [])
  | d :: rest =>
      match stepperEntryBody env running cur d with
      | .error _ => stepperEntryPhase env running cur rest
      | .ok (r, c, evs) =>
          let t := stepperEntryPhase env r c rest
          (t.1, t.2.1, evs ++ t.2.2)

/-- self.running.retain(..) of stepper.rs lines 63-84, textually the same
retain body as in step.rs. -/
def stepperRetainPhase (env : StepEnv) (cur : List Shash) : RMap → RMap × List Event
  | [] => ([], [])
  | (h, pid) :: rest =>
      let sig : List Event := if curContains cur h then [] else [.sigterm h pid]
      let w := env.tryWait pid
      let t := stepperRetainPhase env cur rest
      let keep : Bool :=
        match w with
        | .alive => true
        | .exited _ => false
        | .err _ => true
      (if keep then (h, pid) :: t.1 else t.1, sig ++ .waited h pid w :: t.2)

/-- Stepper::invoke (stepper.rs lines 26-86): one pass over self.dir
mutating self.running; read_dir failure returns StepError::ReadDir with the
map untouched. -/
def Stepper.invoke (env : StepEnv) (s : Stepper) :
    Stepper × Except StepperError Unit × List Event :=
  match env.listing with
  | .error e => (s, .error (.readDir e), [])
  | .ok ds =>
      let t := stepperEntryPhase env s.running [] ds
      let r := stepperRetainPhase env t.2.1 t.1
      (⟨s.dir, r.1⟩, .ok (), t.2.2 ++ r.2)

/-- The for-loop of main.rs lines 29-73: the same per-entry pipeline written
with match and continue; every failure skips to the next entry without
touching running or cur. -/
def mainEntryPhase (env : StepEnv) (running : RMap) (cur : List Shash) :
    List DirEntryRes → RMap × List Shash × List Event
  | [] => (running, cur, [])
  | d :: rest =>
      match d with
      | .err _ => mainEntryPhase env running cur rest
      | .ok entryPath =>
          let p := runPath entryPath
          match env.fingerprint p with
          | .error _ => mainEntryPhase env running cur rest
          | .ok hash =>
              if containsKey running hash then
                mainEntryPhase env running (cur ++ [hash]) rest
              else
                match env.spawnRes p with
                | .error _ => mainEntryPhase env running cur rest
                | .ok pid =>
                    let t := mainEntryPhase env (running ++ [(hash, pid)]) (cur ++ [hash]) rest
                    (t.1, t.2.1, .spawned hash pid :: t.2.2)

/-- running.retain(..) of main.rs lines 75-96, textually the same retain
body as in step.rs. -/
def mainRetainPhase (env : StepEnv) (cur : List Shash) : RMap → RMap × List Event
  | [] => ([], [])
  | (h, pid) :: rest =>
      let sig : List Event := if curContains cur h then [] else [.sigterm h pid]
      let w := env.tryWait pid
      let t := mainRetainPhase env cur rest
      let keep : Bool :=
        match w with
        | .alive => true
        | .exited _ => false
        | .err _ => true
      (if keep then (h, pid) :: t.1 else t.1, sig ++ .waited h pid w :: t.2)

/-- fn step(dir, running) from main.rs lines 26-97: returns unit; a
read_dir failure is logged and the function returns early with the map
untouched. -/
def mainStep (env : StepEnv) (running : RMap) : RMap × List Event :=
  match env.listing with
  | .error _ => (running, [])
  | .ok ds =>
      let t := mainEntryPhase env running [] ds
      let r := mainRetainPhase env t.2.1 t.1
      (r.1, t.2.2 ++ r.2)

/-- The keep decision the retain body takes on a try_wait outcome:
still running and query failure keep the entry, a reported exit removes it. -/
def keepWait : WaitRes → Bool
  | .alive => true
  | .exited _ => false
  | .err _ => true

/-- The trace block the retain body emits for one tracked entry: a SIGTERM
when the entry is stale, then its exit check. -/
def retainBlock (env : StepEnv) (cur : List Shash) (e : Shash × Pid) : List Event :=
  (if curContains cur e.1 then [] else [Event.sigterm e.1 e.2])
    ++ [Event.waited e.1 e.2 (env.tryWait e.2)]

theorem retainPhase_fst (env : StepEnv) (cur : List Shash) (m : RMap) :
    (retainPhase env cur m).1 = m.filter fun e => keepWait (env.tryWait e.2) := by
  induction m with
  | nil => rfl
  | cons e rest ih =>
      obtain ⟨h, pid⟩ := e
      cases hw : env.tryWait pid <;>
        simp [retainPhase, ih, hw, keepWait, List.filter_cons]

theorem retainPhase_snd (env : StepEnv) (cur : List Shash) (m : RMap) :
    (retainPhase env cur m).2 = (m.map (retainBlock env cur)).flatten := by
  induction m with
  | nil => rfl
  | cons e rest ih =>
      obtain ⟨h, pid⟩ := e
      cases hw : env.tryWait pid <;>
        simp [retainPhase, ih, hw, retainBlock]

theorem retainPhase_alive (env : StepEnv) (cur : List Shash) (m : RMap)
    (hw : ∀ pid, env.tryWait pid = .alive) :
    (retainPhase env cur m).1 = m := by
  rw [retainPhase_fst]
  exact List.filter_eq_self.mpr fun e _ => by rw [hw e.2]; rfl

theorem retainPhase_no_spawn (env : StepEnv) (cur : List Shash) (m : RMap)
    (h : Shash) (pid : Pid) :
    Event.spawned h pid ∉ (retainPhase env cur m).2 := by
  rw [retainPhase_snd]
  intro hmem
  rcases List.mem_flatten.mp hmem with ⟨l, hl, hml⟩
  rcases List.mem_map.mp hl with ⟨e, _, rfl⟩
  revert hml
  by_cases hc : curContains cur e.1 <;> simp [retainBlock, hc]

theorem retainPhase_waited_mem (env : StepEnv) (cur : List Shash) (m : RMap)
    (e : Shash × Pid) (he : e ∈ m) :
    Event.waited e.1 e.2 (env.tryWait e.2) ∈ (retainPhase env cur m).2 := by
  rw [retainPhase_snd]
  refine List.mem_flatten.mpr ⟨retainBlock env cur e, List.mem_map.mpr ⟨e, he, rfl⟩, ?_⟩
  by_cases hc : curContains cur e.1 <;> simp [retainBlock, hc]

theorem retainPhase_sigterm_mem (env : StepEnv) (cur : List Shash) (m : RMap)
    (e : Shash × Pid) (he : e ∈ m) (hstale : curContains cur e.1 = false) :
    Event.sigterm e.1 e.2 ∈ (retainPhase env cur m).2 := by
  rw [retainPhase_snd]
  refine List.mem_flatten.mpr ⟨retainBlock env cur e, List.mem_map.mpr ⟨e, he, rfl⟩, ?_⟩
  simp [retainBlock, hstale]

theorem retainPhase_kept_mem (env : StepEnv) (cur : List Shash) (m : RMap)
    (e : Shash × Pid) (he : e ∈ m) (hk : keepWait (env.tryWait e.2) = true) :
    e ∈ (retainPhase env cur m).1 := by
  rw [retainPhase_fst]
  exact List.mem_filter.mpr ⟨he, hk⟩

theorem containsKey_append (m1 m2 : RMap) (h : Shash) :
    containsKey (m1 ++ m2) h = (containsKey m1 h || containsKey m2 h) :=
  List.any_append

theorem containsKey_singleton_self (h : Shash) (pid : Pid) :
    containsKey [(h, pid)] h = true := by
  simp [containsKey, Shash.beq]

/-- A successful entry body only ever appends to the tracked map. -/
theorem entryBody_ok_append (env : StepEnv) (r : RMap) (c : List Shash)
    (d : DirEntryRes) (r' : RMap) (c' : List Shash) (evs : List Event)
    (hok : entryBody env r c d = .ok (r', c', evs)) :
    ∃ ext, r' = r ++ ext := by
  cases d with
  | err e => simp [entryBody] at hok
  | ok ep =>
      cases hf : env.fingerprint (runPath ep) with
      | error e => simp [entryBody, hf] at hok
      | ok hash =>
          cases hc : containsKey r hash with
          | true =>
              simp [entryBody, hf, hc] at hok
              obtain ⟨h1, h2, h3⟩ := hok
              exact ⟨[], by rw [← h1]; simp⟩
          | false =>
              cases hs : env.spawnRes (runPath ep) with
              | error e => simp [entryBody, hf, hc, hs] at hok
              | ok pid =>
                  simp [entryBody, hf, hc, hs] at hok
                  obtain ⟨h1, h2, h3⟩ := hok
                  exact ⟨[(hash, pid)], by rw [← h1]⟩

/-- The entry phase only ever appends to the tracked map. -/
theorem entryPhase_running_append (env : StepEnv) (ds : List DirEntryRes) :
    ∀ r c, ∃ ext, (entryPhase env r c ds).1 = r ++ ext := by
  induction ds with
  | nil => exact fun r c => ⟨[], by simp [entryPhase]⟩
  | cons d rest ih =>
      intro r c
      cases hb : entryBody env r c d with
      | error e => simpa [entryPhase, hb] using ih r c
      | ok t =>
          obtain ⟨r1, c1, evs⟩ := t
          obtain ⟨e1, he1⟩ := entryBody_ok_append env r c d r1 c1 evs hb
          subst he1
          obtain ⟨e2, he2⟩ := ih (r ++ e1) c1
          exact ⟨e1 ++ e2, by simp [entryPhase, hb, he2, List.append_assoc]⟩

/-- Key membership in the tracked map is monotone through the entry phase. -/
theorem entryPhase_containsKey_mono (env : StepEnv) (ds : List DirEntryRes)
    (r : RMap) (c : List Shash) (h : Shash) (hc : containsKey r h = true) :
    containsKey (entryPhase env r c ds).1 h = true := by
  obtain ⟨ext, hext⟩ := entryPhase_running_append env ds r c
  rw [hext, containsKey_append, hc, Bool.true_or]

/-- A directory entry is spawn-settled in a map when a successful fingerprint
whose spawn would succeed is already a key of the map. -/
def spawnSettled (env : StepEnv) (m : RMap) : DirEntryRes → Prop
  | .err _ => True
  | .ok ep => ∀ hsh pid, env.fingerprint (runPath ep) = .ok hsh →
      env.spawnRes (runPath ep) = .ok pid → containsKey m hsh = true

/-- After the entry phase, every processed entry is spawn-settled in the
resulting map: its identity was either already tracked, or inserted by a
successful spawn, or its spawn fails. -/
theorem entryPhase_settles (env : StepEnv) (ds : List DirEntryRes) :
    ∀ r c d, d ∈ ds → spawnSettled env (entryPhase env r c ds).1 d := by
  induction ds with
  | nil => intro r c d hd; cases hd
  | cons d0 rest ih =>
      intro r c d hd
      rcases List.mem_cons.mp hd with rfl | hdrest
      · cases d with
        | err e0 => trivial
        | ok ep =>
            intro hsh pid hf hs
            cases hc : containsKey r hsh with
            | true =>
                have hb : entryBody env r c (.ok ep) = .ok (r, c ++ [hsh], []) := by
                  simp [entryBody, hf, hc]
                simp only [entryPhase, hb]
                exact entryPhase_containsKey_mono env rest r (c ++ [hsh]) hsh hc
            | false =>
                have hb : entryBody env r c (.ok ep) =
                    .ok (r ++ [(hsh, pid)], c ++ [hsh], [.spawned hsh pid]) := by
                  simp [entryBody, hf, hc, hs]
                simp only [entryPhase, hb]
                refine entryPhase_containsKey_mono env rest _ _ hsh ?_
                rw [containsKey_append, containsKey_singleton_self, Bool.or_true]
      · cases hb : entryBody env r c d0 with
        | error e =>
            simp only [entryPhase, hb]
            exact ih r c d hdrest
        | ok t =>
            obtain ⟨r1, c1, evs⟩ := t
            simp only [entryPhase, hb]
            exact ih r1 c1 d hdrest

/-- When every listed entry is already spawn-settled in the map, the entry
phase inserts nothing and spawns nothing: the tracked map is returned
unchanged and no spawned event is emitted. -/
theorem entryPhase_stable (env : StepEnv) (ds : List DirEntryRes) :
    ∀ r c, (∀ d ∈ ds, spawnSettled env r d) →
      (entryPhase env r c ds).1 = r ∧ (entryPhase env r c ds).2.2 = [] := by
  induction ds with
  | nil => intro r c _; exact ⟨rfl, rfl⟩
  | cons d0 rest ih =>
      intro r c hset
      have hrest : ∀ d ∈ rest, spawnSettled env r d :=
        fun d hd => hset d (List.mem_cons_of_mem d0 hd)
      cases d0 with
      | err e0 =>
          have hb : entryBody env r c (.err e0) = .error (.readDirEntry e0) := rfl
          simp only [entryPhase, hb]
          exact ih r c hrest
      | ok ep =>
          cases hf : env.fingerprint (runPath ep) with
          | error e =>
              have hb : entryBody env r c (.ok ep) = .error (.shash e) := by
                simp [entryBody, hf]
              simp only [entryPhase, hb]
              exact ih r c hrest
          | ok hash =>
              cases hc : containsKey r hash with
              | true =>
                  have hb : entryBody env r c (.ok ep) = .ok (r, c ++ [hash], []) := by
                    simp [entryBody, hf, hc]
                  simp only [entryPhase, hb]
                  have := ih r (c ++ [hash]) hrest
                  exact ⟨this.1, by simp [this.2]⟩
              | false =>
                  cases hs : env.spawnRes (runPath ep) with
                  | error e =>
                      have hb : entryBody env r c (.ok ep) = .error (.spawnFail hash e) := by
                        simp [entryBody, hf, hc, hs]
                      simp only [entryPhase, hb]
                      exact ih r c hrest
                  | ok pid =>
                      exact absurd (hset (.ok ep) (List.mem_cons_self _ rest) hash pid hf hs)
                        (by simp [hc])

/-- The entry loop of Stepper::invoke computes the same state as the entry
loop of step: the two bodies differ only in the payload of the error they
log before skipping. -/
theorem stepperEntryPhase_eq (env : StepEnv) (ds : List DirEntryRes) :
    ∀ r c, stepperEntryPhase env r c ds = entryPhase env r c ds := by
  induction ds with
  | nil => intro r c; rfl
  | cons d0 rest ih =>
      intro r c
      cases d0 with
      | err e0 =>
          have hb1 : stepperEntryBody env r c (.err e0) = .error (.readDirEntry e0) := rfl
          have hb2 : entryBody env r c (.err e0) = .error (.readDirEntry e0) := rfl
          simp only [stepperEntryPhase, entryPhase, hb1, hb2]
          exact ih r c
      | ok ep =>
          cases hf : env.fingerprint (runPath ep) with
          | error e =>
              have hb1 : stepperEntryBody env r c (.ok ep) = .error (.shash (runPath ep) e) := by
                simp [stepperEntryBody, hf]
              have hb2 : entryBody env r c (.ok ep) = .error (.shash e) := by
                simp [entryBody, hf]
              simp only [stepperEntryPhase, entryPhase, hb1, hb2]
              exact ih r c
          | ok hash =>
              cases hc : containsKey r hash with
              | true =>
                  have hb1 : stepperEntryBody env r c (.ok ep) = .ok (r, c ++ [hash], []) := by
                    simp [stepperEntryBody, hf, hc]
                  have hb2 : entryBody env r c (.ok ep) = .ok (r, c ++ [hash], []) := by
                    simp [entryBody, hf, hc]
                  simp only [stepperEntryPhase, entryPhase, hb1, hb2, ih]
              | false =>
                  cases hs : env.spawnRes (runPath ep) with
                  | error e =>
                      have hb1 : stepperEntryBody env r c (.ok ep) = .error (.spawnFail hash e) := by
                        simp [stepperEntryBody, hf, hc, hs]
                      have hb2 : entryBody env r c (.ok ep) = .error (.spawnFail hash e) := by
                        simp [entryBody, hf, hc, hs]
                      simp only [stepperEntryPhase, entryPhase, hb1, hb2]
                      exact ih r c
                  | ok pid =>
                      have hb1 : stepperEntryBody env r c (.ok ep) =
                          .ok (r ++ [(hash, pid)], c ++ [hash], [.spawned hash pid]) := by
                        simp [stepperEntryBody, hf, hc, hs]
                      have hb2 : entryBody env r c (.ok ep) =
                          .ok (r ++ [(hash, pid)], c ++ [hash], [.spawned hash pid]) := by
                        simp [entryBody, hf, hc, hs]
                      simp only [stepperEntryPhase, entryPhase, hb1, hb2, ih]

/-- The retain body of stepper.rs is textually the retain body of step.rs. -/
theorem stepperRetainPhase_eq (env : StepEnv) (cur : List Shash) (m : RMap) :
    stepperRetainPhase env cur m = retainPhase env cur m := by
  induction m with
  | nil => rfl
  | cons e rest ih =>
      obtain ⟨h, pid⟩ := e
      simp only [stepperRetainPhase, retainPhase, ih]

/-- The entry loop of main.rs (match and continue) computes the same state
as the entry loop of step.rs (closure returning a result). -/
theorem mainEntryPhase_eq (env : StepEnv) (ds : List DirEntryRes) :
    ∀ r c, mainEntryPhase env r c ds = entryPhase env r c ds := by
  induction ds with
  | nil => intro r c; rfl
  | cons d0 rest ih =>
      intro r c
      cases d0 with
      | err e0 =>
          have hb2 : entryBody env r c (.err e0) = .error (.readDirEntry e0) := rfl
          simp only [mainEntryPhase, entryPhase, hb2]
          exact ih r c
      | ok ep =>
          cases hf : env.fingerprint (runPath ep) with
          | error e =>
              have hb2 : entryBody env r c (.ok ep) = .error (.shash e) := by
                simp [entryBody, hf]
              simp only [mainEntryPhase, entryPhase, hb2, hf]
              exact ih r c
          | ok hash =>
              cases hc : containsKey r hash with
              | true =>
                  have hb2 : entryBody env r c (.ok ep) = .ok (r, c ++ [hash], []) := by
                    simp [entryBody, hf, hc]
                  simp only [mainEntryPhase, entryPhase, hb2, hf, hc, ih]
                  simp
              | false =>
                  cases hs : env.spawnRes (runPath ep) with
                  | error e =>
                      have hb2 : entryBody env r c (.ok ep) = .error (.spawnFail hash e) := by
                        simp [entryBody, hf, hc, hs]
                      simp only [mainEntryPhase, entryPhase, hb2, hf, hc, hs]
                      exact ih r c
                  | ok pid =>
                      have hb2 : entryBody env r c (.ok ep) =
                          .ok (r ++ [(hash, pid)], c ++ [hash], [.spawned hash pid]) := by
                        simp [entryBody, hf, hc, hs]
                      simp only [mainEntryPhase, entryPhase, hb2, hf, hc, hs, ih]
                      simp

/-- The retain body of main.rs is textually the retain body of step.rs. -/
theorem mainRetainPhase_eq (env : StepEnv) (cur : List Shash) (m : RMap) :
    mainRetainPhase env cur m = retainPhase env cur m := by
  induction m with
  | nil => rfl
  | cons e rest ih =>
      obtain ⟨h, pid⟩ := e
      simp only [mainRetainPhase, retainPhase, ih]

/-- Is an event a SIGTERM send. -/
def isSigtermEv : Event → Bool
  | .sigterm _ _ => true
  | _ => false

/-- The ordering property claimed for the reap phase: no termination signal
occurs anywhere after an exit check in the trace (equivalently, every signal
precedes every exit check). -/
def noSigtermAfterWait : List Event → Bool
  | [] => true
  | .waited _ _ _ :: rest => !(rest.any isSigtermEv) && noSigtermAfterWait rest
  | _ :: rest => noSigtermAfterWait rest

/-- Concrete environment: empty directory listing, failing fingerprints and
spawns, every process reported alive. -/
def envC2 : StepEnv :=
  ⟨.ok [], fun p => .error (.openFile p .notFound), fun _ => .error .notFound, fun _ => .alive⟩

/-- Concrete environment for the reap ordering counterexample: empty
listing, so every tracked entry is stale; all processes stay alive. -/
def envC3 : StepEnv :=
  ⟨.ok [], fun p => .error (.openFile p .notFound), fun _ => .error .notFound, fun _ => .alive⟩

/-- Two tracked entries, both stale under envC3. -/
def mC3 : RMap :=
  [(⟨[1], [10]⟩, 1), (⟨[2], [20]⟩, 2)]

/-- Concrete environment whose root listing fails. -/
def envC4 : StepEnv :=
  ⟨.error .notFound, fun p => .error (.openFile p .notFound), fun _ => .error .notFound,
   fun _ => .alive⟩

/-- Concrete environment with one listed entry whose fingerprint fails. -/
def envC5 : StepEnv :=
  ⟨.ok [.ok [3]], fun p => .error (.openFile p .notFound), fun _ => .error .notFound,
   fun _ => .alive⟩

/-- Concrete environment with one listed entry, successful fingerprint and
spawn, and every process alive. -/
def envC7 : StepEnv :=
  ⟨.ok [.ok [3]], fun p => .ok ⟨p, p⟩, fun _ => .ok 9, fun _ => .alive⟩

/-- Concrete environment: empty listing (every tracked entry stale), every
process alive. -/
def envC10 : StepEnv :=
  ⟨.ok [], fun p => .error (.openFile p .notFound), fun _ => .error .notFound, fun _ => .alive⟩

/-- C1: the fingerprint absorbs, in this exact order, the path bytes, a zero
byte, the path byte-length as a fixed-width integer, a zero byte, the full
file content, a zero byte, and the content byte count as a fixed-width
integer: for every path, every content and every read trace delivering that
content, the computed digest is the digest of exactly this reference
sequence (refFeed), paired with the originating path. -/
theorem c1_fingerprint_order (digestF : Bytes → Bytes) (path content : Bytes)
    (evs : List ReadEvent) (h : ReadsTo evs content) :
    shashTryFrom digestF path (.ok ()) evs =
      some (.ok ⟨digestF (refFeed path content), path⟩) := by
  have hl := readLoop_readsTo digestF path evs content h
    (path ++ [0] ++ neBytes path.length ++ [0]) 0
  rw [shashTryFrom, hl]
  simp [refFeed, List.append_assoc]

/-- C1 witness: a single-chunk read of content [7] at path [1]. -/
theorem c1_fingerprint_order_witness :
    shashTryFrom id [1] (.ok ()) [.ok [7], .ok []] =
      some (.ok ⟨refFeed [1] [7], [1]⟩) :=
  c1_fingerprint_order id [1] [7] [.ok [7], .ok []]
    (ReadsTo.chunk [7] [.ok []] [] (by decide) (ReadsTo.eof []))

/-- C6: Shash equality holds iff the digest bytes agree, and neither
equality nor the bytes fed to the hasher state depend on the stored path. -/
theorem c6_eq_hash_digest_only :
    (∀ a b : Shash, Shash.beq a b = true ↔ a.hash = b.hash)
    ∧ (∀ h1 p1 q1 h2 p2 q2 : Bytes,
        Shash.beq ⟨h1, p1⟩ ⟨h2, p2⟩ = Shash.beq ⟨h1, q1⟩ ⟨h2, q2⟩)
    ∧ (∀ hh p q : Bytes, Shash.hashFeed ⟨hh, p⟩ = Shash.hashFeed ⟨hh, q⟩) := by
  refine ⟨fun a b => ?_, fun _ _ _ _ _ _ => rfl, fun _ _ _ => rfl⟩
  simp [Shash.beq]

/-- C6 witness: two fingerprints with equal digests and different paths are
equal. -/
theorem c6_eq_hash_digest_only_witness :
    Shash.beq ⟨[3], [1]⟩ ⟨[3], [2]⟩ = true :=
  (c6_eq_hash_digest_only.1 ⟨[3], [1]⟩ ⟨[3], [2]⟩).mpr rfl

/-- C8: an interrupted read is retried with the hasher state unchanged; an
open failure surfaces OpenFile with the path and cause; any other read
failure aborts with ReadFile carrying the path and cause; and every
fingerprint ever returned is complete: it is the digest of the absorbed
bytes followed by the final zero byte and total-length framing. -/
theorem c8_read_error_handling :
    (∀ (digestF : Bytes → Bytes) path acc n evs,
        readLoop digestF path acc n (.err .interrupted :: evs) =
          readLoop digestF path acc n evs)
    ∧ (∀ (digestF : Bytes → Bytes) path e evs,
        shashTryFrom digestF path (.error e) evs =
          some (.error (.openFile path e)))
    ∧ (∀ (digestF : Bytes → Bytes) path acc n e evs, e ≠ ErrorKind.interrupted →
        readLoop digestF path acc n (.err e :: evs) =
          some (.error (.readFile path e)))
    ∧ (∀ (digestF : Bytes → Bytes) path acc n evs sh,
        readLoop digestF path acc n evs = some (.ok sh) →
        ∃ c, sh = ⟨digestF (acc ++ c ++ [0] ++ neBytes (n + c.length)), path⟩) := by
  refine ⟨fun digestF path acc n evs => by simp [readLoop],
    fun digestF path e evs => rfl,
    fun digestF path acc n e evs he => by simp [readLoop, he],
    ?_⟩
  intro digestF path acc n evs
  induction evs generalizing acc n with
  | nil => intro sh h; simp [readLoop] at h
  | cons ev rest ih =>
      intro sh h
      match ev with
      | .ok [] =>
          simp [readLoop] at h
          exact ⟨[], by simp [← h]⟩
      | .ok (x :: xs) =>
          obtain ⟨c, hc⟩ := ih (acc ++ (x :: xs)) (n + (x :: xs).length) sh h
          exact ⟨(x :: xs) ++ c, by
            rw [hc]
            simp [List.append_assoc, Nat.add_assoc, Nat.add_comm, Nat.add_left_comm]⟩
      | .err e =>
          by_cases he : e = ErrorKind.interrupted
          · subst he
            rw [readLoop] at h
            simp at h
            exact ih _ _ sh h
          · rw [readLoop] at h
            simp [he] at h

/-- C8 witness: a NotFound read failure aborts with ReadFile naming the path
and the cause. -/
theorem c8_read_error_handling_witness :
    readLoop id [1] [] 0 [.err .notFound] = some (.error (.readFile [1] .notFound)) :=
  c8_read_error_handling.2.2.1 id [1] [] 0 .notFound [] (by decide)

/-- C2: in the final phase of a pass an exit check is performed on every
tracked entry; an entry is kept exactly when the check does not confirm an
exit (still running, or the check itself errored) and removed when it does,
independently of the desired set; a pass with a successful listing ends in
exactly this phase. -/
theorem c2_reap_all_entries (env : StepEnv) (cur : List Shash) (m : RMap)
    (ds : List DirEntryRes) (hls : env.listing = .ok ds) :
    (retainPhase env cur m).1 = m.filter (fun e => keepWait (env.tryWait e.2))
    ∧ (∀ e ∈ m, Event.waited e.1 e.2 (env.tryWait e.2) ∈ (retainPhase env cur m).2)
    ∧ (step env m).running =
        (retainPhase env (entryPhase env m [] ds).2.1 (entryPhase env m [] ds).1).1 := by
  refine ⟨retainPhase_fst env cur m,
    fun e he => retainPhase_waited_mem env cur m e he, ?_⟩
  simp [step, hls]

/-- C2 witness: a stale alive entry receives an exit check and is kept. -/
theorem c2_reap_all_entries_witness :
    Event.waited ⟨[1], [2]⟩ 5 .alive ∈ (retainPhase envC2 [] [(⟨[1], [2]⟩, 5)]).2 :=
  (c2_reap_all_entries envC2 [] [(⟨[1], [2]⟩, 5)] [] rfl).2.1 (⟨[1], [2]⟩, 5) (by decide)

/-- C3 counterexample: with two stale tracked entries, the pass polls the
first entry's exit status before the second stale entry is signaled, so the
claim that every stale signal precedes every exit check fails on this
concrete pass. -/
theorem c3_counterexample_interleaved :
    (step envC3 mC3).trace =
      [.sigterm ⟨[1], [10]⟩ 1, .waited ⟨[1], [10]⟩ 1 .alive,
       .sigterm ⟨[2], [20]⟩ 2, .waited ⟨[2], [20]⟩ 2 .alive]
    ∧ noSigtermAfterWait (step envC3 mC3).trace = false := by
  exact ⟨rfl, rfl⟩

/-- C3 amended: the final phase handles tracked entries one at a time in
iteration order; a stale entry's termination signal is emitted immediately
before that same entry's exit check, so every stale identity is signaled
before its own exit status is polled, while exit checks of earlier entries
may precede signals of later stale entries. -/
theorem c3_amended_per_entry_order (env : StepEnv) (cur : List Shash) (m : RMap) :
    (retainPhase env cur m).2 = (m.map (retainBlock env cur)).flatten
    ∧ ∀ e ∈ m, curContains cur e.1 = false →
        Event.sigterm e.1 e.2 ∈ (retainPhase env cur m).2 :=
  ⟨retainPhase_snd env cur m,
   fun e he hstale => retainPhase_sigterm_mem env cur m e he hstale⟩

/-- C3 amended witness: the interleaved trace of the counterexample pass is
exactly the concatenation of the two per-entry blocks. -/
theorem c3_amended_per_entry_order_witness :
    (retainPhase envC3 [] mC3).2 = (mC3.map (retainBlock envC3 [])).flatten :=
  (c3_amended_per_entry_order envC3 [] mC3).1

/-- C4: a root listing failure makes the pass return the ReadDir error with
the tracked map completely unchanged and an empty action trace: nothing is
inserted, removed, signaled or reaped. -/
theorem c4_readdir_fatal (env : StepEnv) (m : RMap) (e : IOError)
    (h : env.listing = .error e) :
    step env m = ⟨m, .error (.readDir e), []⟩ := by
  simp [step, h]

/-- C4 witness: a failing listing leaves one tracked entry untouched. -/
theorem c4_readdir_fatal_witness :
    step envC4 [(⟨[1], [2]⟩, 7)] = ⟨[(⟨[1], [2]⟩, 7)], .error (.readDir .notFound), []⟩ :=
  c4_readdir_fatal envC4 [(⟨[1], [2]⟩, 7)] .notFound rfl

/-- C5: a failure while processing one directory entry is non-fatal: the
failed entry leaves the tracked map, the desired set and the trace exactly
as if the entry were absent (nothing inserted, nothing contributed to the
desired set), and the pass still returns Ok whenever the listing succeeded. -/
theorem c5_entry_failure_isolated (env : StepEnv) (r : RMap) (c : List Shash)
    (d : DirEntryRes) (rest : List DirEntryRes) (err : StepError) (m : RMap)
    (ds : List DirEntryRes)
    (h : entryBody env r c d = .error err) (hls : env.listing = .ok ds) :
    entryPhase env r c (d :: rest) = entryPhase env r c rest
    ∧ (step env m).passRes = .ok () := by
  constructor
  · simp [entryPhase, h]
  · simp [step, hls]

/-- C5 witness: an entry whose fingerprint fails is skipped and the pass
still succeeds. -/
theorem c5_entry_failure_isolated_witness :
    entryPhase envC5 [] [] [.ok [3]] = entryPhase envC5 [] [] []
    ∧ (step envC5 []).passRes = .ok () :=
  c5_entry_failure_isolated envC5 [] [] (.ok [3]) [] 
    (.shash (.openFile (runPath [3]) .notFound)) [] [.ok [3]] (by decide) rfl

/-- C7: when the directory contents and entry outcomes are unchanged and
every tracked process is still alive, a second pass leaves the tracked map
exactly as the first pass left it and spawns nothing new. -/
theorem c7_idempotent_pass (env : StepEnv) (m : RMap)
    (hw : ∀ pid, env.tryWait pid = .alive) :
    (step env (step env m).running).running = (step env m).running
    ∧ ∀ h pid, Event.spawned h pid ∉ (step env (step env m).running).trace := by
  cases hls : env.listing with
  | error e =>
      refine ⟨by simp [step, hls], fun h pid => by simp [step, hls]⟩
  | ok ds =>
      have hm1 : (step env m).running = (entryPhase env m [] ds).1 := by
        simp [step, hls, retainPhase_alive _ _ _ hw]
      have hset := entryPhase_settles env ds m []
      have hstable := entryPhase_stable env ds (entryPhase env m [] ds).1 []
        (fun d hd => hset d hd)
      constructor
      · rw [hm1]
        simp [step, hls, retainPhase_alive _ _ _ hw, hstable.1]
      · intro h pid hmem
        rw [hm1] at hmem
        simp only [step, hls] at hmem
        rcases List.mem_append.mp hmem with hentry | hretain
        · rw [hstable.2] at hentry
          cases hentry
        · exact retainPhase_no_spawn env _ _ h pid hretain

/-- C7 witness: a second pass after one successful spawn keeps the map and
spawns nothing. -/
theorem c7_idempotent_pass_witness :
    (step envC7 (step envC7 []).running).running = (step envC7 []).running
    ∧ ∀ h pid, Event.spawned h pid ∉ (step envC7 (step envC7 []).running).trace :=
  c7_idempotent_pass envC7 [] (fun _ => rfl)

/-- C9: the three pass implementations perform the same tracked-map
transformation: Stepper::invoke agrees with the free function step in map,
success and trace; the main.rs step performs the same transformation while
returning unit; and step reports an error exactly when the root listing
failed. -/
theorem c9_three_variants_agree (env : StepEnv) (s : Stepper) (m : RMap) :
    ((Stepper.invoke env s).1.running = (step env s.running).running
      ∧ (Stepper.invoke env s).2.1.isOk = (step env s.running).passRes.isOk
      ∧ (Stepper.invoke env s).2.2 = (step env s.running).trace)
    ∧ mainStep env m = ((step env m).running, (step env m).trace)
    ∧ ((step env m).passRes.isOk = true ↔ env.listing.isOk = true) := by
  cases hls : env.listing with
  | error e =>
      refine ⟨⟨?_, ?_, ?_⟩, ?_, ?_⟩ <;>
        simp [Stepper.invoke, step, mainStep, hls, Except.isOk, Except.toBool]
  | ok ds =>
      refine ⟨⟨?_, ?_, ?_⟩, ?_, ?_⟩ <;>
        simp [Stepper.invoke, step, mainStep, hls, Except.isOk, Except.toBool,
          stepperEntryPhase_eq, stepperRetainPhase_eq, mainEntryPhase_eq,
          mainRetainPhase_eq]

/-- C10: a stale tracked identity is signaled in every pass in which it is
still tracked and not desired; when its exit check does not confirm
termination it stays in the tracked map, so the next pass signals it
again. -/
theorem c10_stale_resignaled (env : StepEnv) (m : RMap) (ds : List DirEntryRes)
    (h : Shash) (pid : Pid)
    (hls : env.listing = .ok ds)
    (hmem : (h, pid) ∈ (entryPhase env m [] ds).1)
    (hstale : curContains (entryPhase env m [] ds).2.1 h = false)
    (hkeep : keepWait (env.tryWait pid) = true) :
    Event.sigterm h pid ∈ (step env m).trace
    ∧ (h, pid) ∈ (step env m).running := by
  have hsig := retainPhase_sigterm_mem env (entryPhase env m [] ds).2.1
    (entryPhase env m [] ds).1 (h, pid) hmem hstale
  have hkept := retainPhase_kept_mem env (entryPhase env m [] ds).2.1
    (entryPhase env m [] ds).1 (h, pid) hmem hkeep
  constructor
  · simp only [step, hls]
    exact List.mem_append.mpr (Or.inr hsig)
  · simp only [step, hls]
    exact hkept

/-- C10 witness: a stale alive entry is signaled and remains tracked. -/
theorem c10_stale_resignaled_witness :
    Event.sigterm ⟨[5], [6]⟩ 1 ∈ (step envC10 [(⟨[5], [6]⟩, 1)]).trace
    ∧ (⟨[5], [6]⟩, 1) ∈ (step envC10 [(⟨[5], [6]⟩, 1)]).running :=
  c10_stale_resignaled envC10 [(⟨[5], [6]⟩, 1)] [] ⟨[5], [6]⟩ 1 rfl
    (by decide) (by decide) (by decide)
